import Mathlib

/-!
# Verification of the status-page tracker core (`tracker.py`)

This file gives a shallow embedding of the fetch / change-detection /
orchestration core of the tracker and proves the specified properties
about it.

* `JVal` models the JSON values flowing through the program;
  Python's `dict.get`, truthiness, iteration, `str.strip` and
  hashability are modelled explicitly, and operations that raise in
  Python return `Except PyErr`.
* `find_new_updates` embeds `ChangeDetector.find_new_updates`,
  threading the mutable seen-set explicitly (mutations performed
  before an exception persist, as they do on the Python object).
* `fetch` embeds `StatusPageFetcher.fetch` over an abstract transport;
  `monitorCycle` embeds one iteration of `monitor_provider`'s loop.
* `SDoc` is the structured universe of schema-conforming documents
  (every field optional, per the input schema); `SDoc.toJVal` encodes
  them as raw values, and refinement lemmas relate `find_new_updates`
  on encoded documents to a transparent specification-level recursion.
-/

/-- A JSON value as the tracker sees it: `null`, strings, lists and
string-keyed dicts (the only value kinds the schema and the claims
exercise). -/
inductive JVal where
  | null : JVal
  | str : String → JVal
  | arr : List JVal → JVal
  | obj : List (String × JVal) → JVal
  deriving Repr

/-- A hashable value: the only values Python's set operations accept,
hence the only values a seen-set key can hold (lists and dicts raise
`TypeError` when hashed). -/
inductive HVal where
  | null : HVal
  | str : String → HVal
  deriving Repr, DecidableEq

/-- The hashable view of a value, `none` for unhashable values. -/
def JVal.toHash : JVal → Option HVal
  | .null => some .null
  | .str s => some (.str s)
  | _ => none

/-- The Python exceptions the embedded code can raise. -/
inductive PyErr where
  | attributeError : PyErr
  | typeError : PyErr
  | jsonDecodeError : PyErr
  deriving Repr, DecidableEq

/-- First-match association-list lookup, modelling lookup in a Python
dict (whose keys are unique). -/
def alookup : List (String × JVal) → String → Option JVal
  | [], _ => none
  | (k', v) :: rest, k => if k = k' then some v else alookup rest k

/-- Python's `x.get(key, default)`: only dicts have `.get`; any other
receiver raises `AttributeError`. -/
def JVal.pyGet : JVal → String → JVal → Except PyErr JVal
  | .obj kvs, k, d => .ok ((alookup kvs k).getD d)
  | _, _, _ => .error .attributeError

/-- Python truthiness of a value. -/
def JVal.truthy : JVal → Bool
  | .null => false
  | .str s => s ≠ ""
  | .arr xs => !xs.isEmpty
  | .obj kvs => !kvs.isEmpty

/-- Python iteration `for x in v`: lists yield their elements, strings
their one-character substrings, dicts their keys; `null` raises
`TypeError`. -/
def JVal.pyIter : JVal → Except PyErr (List JVal)
  | .arr xs => .ok xs
  | .str s => .ok (s.data.map fun c => JVal.str ⟨[c]⟩)
  | .obj kvs => .ok (kvs.map fun kv => JVal.str kv.1)
  | .null => .error .typeError

/-- Removal of leading and trailing whitespace, computably over the
character list (what `str.strip()` does to a string). -/
def pyTrim (s : String) : String :=
  ⟨((s.data.dropWhile Char.isWhitespace).reverse.dropWhile
      Char.isWhitespace).reverse⟩

/-- Python's `v.strip()`: defined on strings only (`AttributeError`
otherwise); strips surrounding whitespace. -/
def pyStrip : JVal → Except PyErr String
  | .str s => .ok (pyTrim s)
  | _ => .error .attributeError

/-- The `IncidentUpdate` dataclass. Python dataclasses do not enforce
their field annotations, so every field a `.get` can fill holds a raw
value; `body` alone is always a string (the result of `.strip()`). -/
structure IncidentUpdate where
  incident_id : JVal
  incident_name : JVal
  update_id : JVal
  created_at : JVal
  body : String
  update_status : JVal
  impact : JVal
  affected_components : List JVal

/-- The detector's seen-set of `(incident_id, update_id)` keys,
modelled as a list used with set semantics; its elements are hashable
values because Python's `set` rejects anything else. -/
abbrev Seen := List (HVal × HVal)

/-- The `(incident_id, update_id)` key of a produced record (every
record the detector emits has hashable ids, so the `.null` fallback is
never exercised on an emitted record). -/
def updateKey (r : IncidentUpdate) : HVal × HVal :=
  (r.incident_id.toHash.getD .null, r.update_id.toHash.getD .null)

/-- The body of the inner `for update in ...` loop: compute the key,
skip it if seen, otherwise add it to the seen-set and build the record
(the seen-set is extended before the record's fields are evaluated, so
a failing `.strip()` leaves the key behind). -/
def processUpdate (incId incName incImpact : JVal) (affected : List JVal)
    (update : JVal) (seen : Seen) :
    Except PyErr (Option IncidentUpdate) × Seen :=
  match update.pyGet "id" (.str "") with
  | .error e => (.error e, seen)
  | .ok updId =>
    match incId.toHash, updId.toHash with
    | some hi, some hu =>
      if (hi, hu) ∈ seen then
        (.ok none, seen)
      else
        let seen' := (hi, hu) :: seen
        match update.pyGet "created_at" (.str "") with
        | .error e => (.error e, seen')
        | .ok created =>
          match update.pyGet "body" (.str "") with
          | .error e => (.error e, seen')
          | .ok bodyVal =>
            match pyStrip bodyVal with
            | .error e => (.error e, seen')
            | .ok body =>
              match update.pyGet "status" (.str "unknown") with
              | .error e => (.error e, seen')
              | .ok status =>
                (.ok (some { incident_id := incId, incident_name := incName,
                             update_id := updId, created_at := created,
                             body := body, update_status := status,
                             impact := incImpact,
                             affected_components := affected }), seen')
    | _, _ => (.error .typeError, seen)

/-- The inner loop over an incident's `incident_updates`. -/
def processUpdates (incId incName incImpact : JVal) (affected : List JVal) :
    List JVal → Seen → Except PyErr (List IncidentUpdate) × Seen
  | [], seen => (.ok [], seen)
  | u :: rest, seen =>
    match processUpdate incId incName incImpact affected u seen with
    | (.error e, seen') => (.error e, seen')
    | (.ok none, seen') => processUpdates incId incName incImpact affected rest seen'
    | (.ok (some r), seen') =>
      match processUpdates incId incName incImpact affected rest seen' with
      | (.error e, seen'') => (.error e, seen'')
      | (.ok rs, seen'') => (.ok (r :: rs), seen'')

/-- The list comprehension building `affected`: keep `c.get("name", "")`
for each component whose `c.get("name")` is truthy. -/
def computeAffected : List JVal → Except PyErr (List JVal)
  | [] => .ok []
  | c :: rest =>
    match c.pyGet "name" .null with
    | .error e => .error e
    | .ok nameVal =>
      if nameVal.truthy then
        match c.pyGet "name" (.str "") with
        | .error e => .error e
        | .ok nameVal' =>
          match computeAffected rest with
          | .error e => .error e
          | .ok tail => .ok (nameVal' :: tail)
      else
        computeAffected rest

/-- The body of the outer `for incident in ...` loop: extract the
per-incident fields and the component names, then walk the incident's
updates. -/
def processIncident (incident : JVal) (seen : Seen) :
    Except PyErr (List IncidentUpdate) × Seen :=
  match incident.pyGet "id" (.str "") with
  | .error e => (.error e, seen)
  | .ok incId =>
    match incident.pyGet "name" (.str "Unknown incident") with
    | .error e => (.error e, seen)
    | .ok incName =>
      match incident.pyGet "impact" (.str "unknown") with
      | .error e => (.error e, seen)
      | .ok incImpact =>
        match incident.pyGet "components" (.arr []) with
        | .error e => (.error e, seen)
        | .ok compsVal =>
          match compsVal.pyIter with
          | .error e => (.error e, seen)
          | .ok comps =>
            match computeAffected comps with
            | .error e => (.error e, seen)
            | .ok affected =>
              match incident.pyGet "incident_updates" (.arr []) with
              | .error e => (.error e, seen)
              | .ok updsVal =>
                match updsVal.pyIter with
                | .error e => (.error e, seen)
                | .ok upds =>
                  processUpdates incId incName incImpact affected upds seen

/-- The outer loop over the document's incidents. -/
def processIncidents : List JVal → Seen → Except PyErr (List IncidentUpdate) × Seen
  | [], seen => (.ok [], seen)
  | inc :: rest, seen =>
    match processIncident inc seen with
    | (.error e, seen') => (.error e, seen')
    | (.ok l1, seen') =>
      match processIncidents rest seen' with
      | (.error e, seen'') => (.error e, seen'')
      | (.ok l2, seen'') => (.ok (l1 ++ l2), seen'')

/-- `ChangeDetector.find_new_updates`, with the detector's seen-set
threaded explicitly.  On an exception the partially extended seen-set
is kept, matching the mutation of `self._seen` on the Python object. -/
def find_new_updates (data : JVal) (seen : Seen) :
    Except PyErr (List IncidentUpdate) × Seen :=
  match data.pyGet "incidents" (.arr []) with
  | .error e => (.error e, seen)
  | .ok incsVal =>
    match incsVal.pyIter with
    | .error e => (.error e, seen)
    | .ok incs => processIncidents incs seen

/-- Feed a sequence of documents to one detector instance, collecting
each call's result and the final seen-set. -/
def runDetector : List JVal → Seen →
    List (Except PyErr (List IncidentUpdate)) × Seen
  | [], seen => ([], seen)
  | d :: ds, seen =>
    let (r, seen') := find_new_updates d seen
    let (rs, seen'') := runDetector ds seen'
    (r :: rs, seen'')

/-- The records returned by a call that completed normally (an
exception returns nothing to the caller). -/
def okList : Except PyErr (List IncidentUpdate) → List IncidentUpdate
  | .ok l => l
  | .error _ => []

/-- The records returned by the `i`-th call of a document sequence
(empty when the index is out of range or the call raised). -/
def callOutput (ds : List JVal) (seen : Seen) (i : Nat) : List IncidentUpdate :=
  okList (((runDetector ds seen).1).getD i (.ok []))

/-- One URL's cached validators, modelling the inner
`{etag, last_modified}` dict (a key is present only when the
corresponding response header was non-empty). -/
structure CacheEntry where
  etag : Option String
  last_modified : Option String
  deriving Repr, DecidableEq

/-- The fetcher's per-URL validator cache `self._cache`. -/
abbrev Cache := List (String × CacheEntry)

/-- Dict lookup in the cache, first match (keys are unique). -/
def cacheGet : Cache → String → Option CacheEntry
  | [], _ => none
  | (u, e) :: rest, url => if url = u then some e else cacheGet rest url

/-- Dict assignment `self._cache[url] = entry`. -/
def cacheSet (c : Cache) (url : String) (e : CacheEntry) : Cache :=
  (url, e) :: c.filter fun kv => kv.1 ≠ url

/-- The walrus-guarded read `if x := d.get(k)`: keeps the value only
when it is present and truthy (a non-empty string). -/
def truthyOpt (o : Option String) : Option String :=
  o.bind fun s => if s = "" then none else some s

/-- The conditional-request headers attached to a fetch. -/
structure RequestHeaders where
  ifNoneMatch : Option String
  ifModifiedSince : Option String
  deriving Repr, DecidableEq

/-- The headers `fetch` sends for `url` given the current cache:
stored validators become `If-None-Match` / `If-Modified-Since`. -/
def requestHeadersFor (c : Cache) (url : String) : RequestHeaders :=
  let cached := (cacheGet c url).getD ⟨none, none⟩
  ⟨truthyOpt cached.etag, truthyOpt cached.last_modified⟩

/-- What `await response.json(content_type=None)` does: a parsed
value; a `json.JSONDecodeError` (a `ValueError`, which is not an
`aiohttp.ClientError`) on a body that is not valid JSON; or an
`aiohttp.ClientError` / `asyncio.TimeoutError` raised while *reading*
the body (the 15-second total timeout also covers the body read) —
those two are caught by `fetch`'s except clauses. -/
inductive BodyParse where
  | parsed : JVal → BodyParse
  | unparseable : BodyParse
  | readClientError : BodyParse
  | readTimeoutError : BodyParse
  deriving Repr

/-- An HTTP response as delivered by `session.get`. -/
structure HttpResponse where
  status : Nat
  etagHeader : Option String
  lastModifiedHeader : Option String
  body : BodyParse
  deriving Repr

/-- The outcome of issuing the request on the wire: a response, or one
of the exceptions the `except` clauses of `fetch` catch. -/
inductive TransportOutcome where
  | resp : HttpResponse → TransportOutcome
  | clientError : TransportOutcome
  | timeoutError : TransportOutcome
  deriving Repr

/-- The network, as a function from URL and request headers to what
`session.get` produces. -/
abbrev Transport := String → RequestHeaders → TransportOutcome

/-- What a call to `fetch` does from the caller's point of view:
returns a parsed document, returns `None`, or lets an exception
escape. -/
inductive FetchResult where
  | doc : JVal → FetchResult
  | noData : FetchResult
  | raised : PyErr → FetchResult
  deriving Repr

/-- The cache entry built from a response's validator headers (the two
walrus-guarded header reads). -/
def entryOfResponse (r : HttpResponse) : CacheEntry :=
  ⟨truthyOpt r.etagHeader, truthyOpt r.lastModifiedHeader⟩

/-- `StatusPageFetcher.fetch`: attach cached validators, return `None`
on 304, let `raise_for_status` fail on statuses ≥ 400 (caught as a
`ClientError`, returning `None`), otherwise overwrite the URL's cache
entry from the response headers and then read and parse the body — a
body that does not parse raises `json.JSONDecodeError`, which no
`except` clause catches, while a `ClientError` or `TimeoutError`
raised during the body read is caught and returns `None`; in all three
body-phase outcomes the cache was already overwritten. -/
def fetch (t : Transport) (c : Cache) (url : String) : FetchResult × Cache :=
  match t url (requestHeadersFor c url) with
  | .clientError => (.noData, c)
  | .timeoutError => (.noData, c)
  | .resp r =>
    if r.status = 304 then
      (.noData, c)
    else if 400 ≤ r.status then
      (.noData, c)
    else
      let c' := cacheSet c url (entryOfResponse r)
      match r.body with
      | .parsed d => (.doc d, c')
      | .unparseable => (.raised .jsonDecodeError, c')
      | .readClientError => (.noData, c')
      | .readTimeoutError => (.noData, c')

/-- The mutable state owned by one provider's task: the fetcher's
cache and the detector's seen-set. -/
structure CycleState where
  cache : Cache
  seen : Seen
  deriving Repr

/-- One iteration of `monitor_provider`'s `while True` loop: fetch,
and when a document arrived run the detector and emit each new update
to the sink in order.  The returned list is the sequence of sink
invocations; `Except.error` means an exception escaped the loop body
(the loop has no handler of its own). -/
def monitorCycle (t : Transport) (url : String) (st : CycleState) :
    Except PyErr (List IncidentUpdate) × CycleState :=
  match fetch t st.cache url with
  | (.raised e, c') => (.error e, ⟨c', st.seen⟩)
  | (.noData, c') => (.ok [], ⟨c', st.seen⟩)
  | (.doc d, c') =>
    match find_new_updates d st.seen with
    | (.error e, seen') => (.error e, ⟨c', seen'⟩)
    | (.ok ups, seen') => (.ok ups, ⟨c', seen'⟩)

/-- A schema-conforming component entry: the `name` field, possibly
absent. -/
structure SComponent where
  name : Option String
  deriving Repr, DecidableEq

/-- A schema-conforming update entry: every field a string, any field
possibly absent. -/
structure SUpdate where
  id : Option String
  created_at : Option String
  body : Option String
  status : Option String
  deriving Repr, DecidableEq

/-- A schema-conforming incident: string fields and the two nested
lists, any field possibly absent. -/
structure SIncident where
  id : Option String
  name : Option String
  impact : Option String
  components : Option (List SComponent)
  incident_updates : Option (List SUpdate)
  deriving Repr, DecidableEq

/-- A schema-conforming document: the `incidents` list, possibly
absent. -/
structure SDoc where
  incidents : Option (List SIncident)
  deriving Repr, DecidableEq

/-- A dict field that is present only when the structured value is. -/
def optField (k : String) : Option String → List (String × JVal)
  | some s => [(k, JVal.str s)]
  | none => []

def SComponent.toJVal (c : SComponent) : JVal :=
  .obj (optField "name" c.name)

def SUpdate.toJVal (u : SUpdate) : JVal :=
  .obj (optField "id" u.id ++ optField "created_at" u.created_at ++
    optField "body" u.body ++ optField "status" u.status)

def SIncident.toJVal (inc : SIncident) : JVal :=
  .obj (optField "id" inc.id ++ optField "name" inc.name ++
    optField "impact" inc.impact ++
    (match inc.components with
     | some cs => [("components", JVal.arr (cs.map SComponent.toJVal))]
     | none => []) ++
    (match inc.incident_updates with
     | some us => [("incident_updates", JVal.arr (us.map SUpdate.toJVal))]
     | none => []))

def SDoc.toJVal (d : SDoc) : JVal :=
  .obj (match d.incidents with
    | some is => [("incidents", JVal.arr (is.map SIncident.toJVal))]
    | none => [])

/-- The incidents of a structured document (absent list ↦ empty). -/
def SDoc.incs (d : SDoc) : List SIncident := d.incidents.getD []

/-- The update entries of a structured incident (absent list ↦ empty). -/
def SIncident.upds (inc : SIncident) : List SUpdate := inc.incident_updates.getD []

/-- The seen-set key a given update entry of a given incident produces:
each id defaults to the empty string when absent. -/
def entryKey (inc : SIncident) (u : SUpdate) : HVal × HVal :=
  (.str (inc.id.getD ""), .str (u.id.getD ""))

/-- The keys of all update entries of an incident, in document order. -/
def SIncident.keys (inc : SIncident) : List (HVal × HVal) :=
  inc.upds.map (entryKey inc)

/-- The keys of all update entries of a document, in document order. -/
def SDoc.docKeys (d : SDoc) : List (HVal × HVal) :=
  (d.incs.map SIncident.keys).flatten

/-- The names of a component list as the detector computes them: the
`name` values that are present and non-empty, in document order,
duplicates preserved; components with a missing or empty name are
dropped. -/
def specAffectedList (cs : List SComponent) : List JVal :=
  cs.filterMap fun c =>
    match c.name with
    | some n => if n = "" then none else some (JVal.str n)
    | none => none

/-- The component-name list of an incident (absent list ↦ empty). -/
def specAffected (inc : SIncident) : List JVal :=
  specAffectedList (inc.components.getD [])

/-- The record built for one update entry, parameterised by the
per-incident values the detector extracted once. -/
def genRecord (a b c : String) (aff : List JVal) (u : SUpdate) : IncidentUpdate :=
  { incident_id := .str a
    incident_name := .str b
    update_id := .str (u.id.getD "")
    created_at := .str (u.created_at.getD "")
    body := pyTrim (u.body.getD "")
    update_status := .str (u.status.getD "unknown")
    impact := .str c
    affected_components := aff }

/-- Walk of one incident's update entries with a seen-set,
parameterised by the extracted per-incident values: skip seen keys,
record and remember unseen ones. -/
def genIncRecords (a b c : String) (aff : List JVal) :
    List SUpdate → Seen → List IncidentUpdate × Seen
  | [], seen => ([], seen)
  | u :: us, seen =>
    if (HVal.str a, HVal.str (u.id.getD "")) ∈ seen then
      genIncRecords a b c aff us seen
    else
      let (l, seen') :=
        genIncRecords a b c aff us ((HVal.str a, HVal.str (u.id.getD "")) :: seen)
      (genRecord a b c aff u :: l, seen')

/-- The record the detector builds for one update entry: absent fields
become explicit placeholders — `""` for the ids, the timestamp and the
body, `"Unknown incident"` for the incident name, `"unknown"` for the
status and the impact — and the body is whitespace-trimmed. -/
def specRecord (inc : SIncident) (u : SUpdate) : IncidentUpdate :=
  genRecord (inc.id.getD "") (inc.name.getD "Unknown incident")
    (inc.impact.getD "unknown") (specAffected inc) u

/-- Specification-level walk of one incident's update entries with a
seen-set: skip seen keys, record and remember unseen ones. -/
def specIncRecords (inc : SIncident) :
    List SUpdate → Seen → List IncidentUpdate × Seen :=
  genIncRecords (inc.id.getD "") (inc.name.getD "Unknown incident")
    (inc.impact.getD "unknown") (specAffected inc)

/-- Specification-level walk of a document's incidents. -/
def specNewRecords : List SIncident → Seen → List IncidentUpdate × Seen
  | [], seen => ([], seen)
  | inc :: rest, seen =>
    let (l1, seen') := specIncRecords inc inc.upds seen
    let (l2, seen'') := specNewRecords rest seen'
    (l1 ++ l2, seen'')

/-- All records of a document in document order, one per update entry
(what a fresh detector reports when no key repeats). -/
def SDoc.allRecords (d : SDoc) : List IncidentUpdate :=
  (d.incs.map fun inc => inc.upds.map (specRecord inc)).flatten

/-! ## Witness inputs and auxiliary state for the theorems below -/

/-- The records a raw `Except (Option _)` step hands to the caller. -/
def okOpt : Except PyErr (Option IncidentUpdate) → List IncidentUpdate
  | .ok (some r) => [r]
  | _ => []

/-- Invariant of one detector step from seen-set `s` to `s'` emitting
`out`: the seen-set only grows, every emitted record's key is newly
seen (absent before, present after), and no key is emitted twice. -/
structure StepInv (s : Seen) (out : List IncidentUpdate) (s' : Seen) : Prop where
  mono : ∀ k, k ∈ s → k ∈ s'
  fresh : ∀ r ∈ out, updateKey r ∈ s' ∧ updateKey r ∉ s
  nodup : (out.map updateKey).Nodup

/-- A transport whose response is a 200 carrying fresh validators and
a body that is not valid JSON. -/
def unparseableTransport : Transport := fun _ _ =>
  .resp { status := 200, etagHeader := some "tag-1", lastModifiedHeader := none,
          body := .unparseable }

/-- A transport that surfaces a 302 response (as `aiohttp` does for a
redirect status without a `Location` header) with a parseable body and
a validator header. -/
def redirectTransport : Transport := fun _ _ =>
  .resp { status := 302, etagHeader := some "redirect-tag", lastModifiedHeader := none,
          body := .parsed (.obj []) }

/-- The transport used as the C5 witness: the request times out. -/
def timeoutTransport : Transport := fun _ _ => .timeoutError

/-- The transport for the second half of the C5 witness: a 200
response with a fresh validator whose body read then times out. -/
def bodyReadTimeoutTransport : Transport := fun _ _ =>
  .resp { status := 200, etagHeader := some "tag-2", lastModifiedHeader := none,
          body := .readTimeoutError }

/-- The transport used as the C6 witness: a repeat request answered
with 304. -/
def notModifiedTransport : Transport := fun _ _ =>
  .resp { status := 304, etagHeader := none, lastModifiedHeader := none,
          body := .unparseable }

/-- First witness document: incident `inc1` with update `u1`. -/
def wDocA : JVal :=
  .obj [("incidents", .arr [.obj [
    ("id", .str "inc1"),
    ("name", .str "API outage"),
    ("impact", .str "major"),
    ("incident_updates", .arr [.obj [("id", .str "u1"),
                                     ("status", .str "investigating")]])]])]

/-- Second witness document: same incident, old update `u1` plus new
update `u2`. -/
def wDocB : JVal :=
  .obj [("incidents", .arr [.obj [
    ("id", .str "inc1"),
    ("name", .str "API outage"),
    ("impact", .str "major"),
    ("incident_updates", .arr [.obj [("id", .str "u1"),
                                     ("status", .str "investigating")],
                               .obj [("id", .str "u2"),
                                     ("status", .str "resolved")]])]])]

/-- The record reported for `u1` on the first call. -/
def wRecA : IncidentUpdate :=
  { incident_id := .str "inc1", incident_name := .str "API outage",
    update_id := .str "u1", created_at := .str "", body := "",
    update_status := .str "investigating", impact := .str "major",
    affected_components := [] }

/-- The record reported for `u2` on the second call. -/
def wRecB : IncidentUpdate :=
  { incident_id := .str "inc1", incident_name := .str "API outage",
    update_id := .str "u2", created_at := .str "", body := "",
    update_status := .str "resolved", impact := .str "major",
    affected_components := [] }

/-- The witness document for idempotence: one incident with one
component and two updates. -/
def wSDoc : SDoc :=
  ⟨some [⟨some "inc1", some "API outage", some "major",
    some [⟨some "API"⟩],
    some [⟨some "u1", some "2024-01-01T00:00:00Z", some " Investigating now ",
           some "investigating"⟩,
          ⟨some "u2", none, none, none⟩]⟩]⟩

/-- The witness incident for C7: every field of the incident and of
its single update entry is absent. -/
def wIncM : SIncident := ⟨none, none, none, none, some [⟨none, none, none, none⟩]⟩

/-- The witness update entry for C7: every field absent. -/
def wUpdM : SUpdate := ⟨none, none, none, none⟩

/-- The document exhibiting C9: incident `inc1` whose update `u1` has
`"body": null` — the field is present but holds `null`. -/
def nullBodyDoc : JVal :=
  .obj [("incidents", .arr [.obj [
    ("id", .str "inc1"),
    ("name", .str "API outage"),
    ("incident_updates", .arr [.obj [("id", .str "u1"), ("body", .null),
                                     ("status", .str "investigating")]])]])]

/-- The same document with the `body` corrected to a string. -/
def fixedBodyDoc : JVal :=
  .obj [("incidents", .arr [.obj [
    ("id", .str "inc1"),
    ("name", .str "API outage"),
    ("incident_updates", .arr [.obj [("id", .str "u1"), ("body", .str "All clear"),
                                     ("status", .str "investigating")]])]])]

/-- The witness incident for C10: components with a duplicate name, an
empty name and a missing name. -/
def wCompInc : SIncident :=
  ⟨some "inc1", some "API outage", some "minor",
   some [⟨some "API"⟩, ⟨some ""⟩, ⟨none⟩, ⟨some "API"⟩],
   some [⟨some "u1", none, none, none⟩]⟩

/-! ## Evaluation of `.get` on encoded documents -/

theorem optStr_getD (o : Option String) (d : String) :
    ((o.map JVal.str).getD (JVal.str d)) = JVal.str (o.getD d) := by
  cases o <;> rfl

theorem pyGet_comp_name (c : SComponent) (d : JVal) :
    c.toJVal.pyGet "name" d = .ok ((c.name.map JVal.str).getD d) := by
  rcases c with ⟨n⟩
  cases n <;> rfl

theorem pyGet_upd_id (u : SUpdate) (d : JVal) :
    u.toJVal.pyGet "id" d = .ok ((u.id.map JVal.str).getD d) := by
  rcases u with ⟨i, ca, b, st⟩
  cases i <;> cases ca <;> cases b <;> cases st <;> rfl

theorem pyGet_upd_created_at (u : SUpdate) (d : JVal) :
    u.toJVal.pyGet "created_at" d = .ok ((u.created_at.map JVal.str).getD d) := by
  rcases u with ⟨i, ca, b, st⟩
  cases i <;> cases ca <;> cases b <;> cases st <;> rfl

theorem pyGet_upd_body (u : SUpdate) (d : JVal) :
    u.toJVal.pyGet "body" d = .ok ((u.body.map JVal.str).getD d) := by
  rcases u with ⟨i, ca, b, st⟩
  cases i <;> cases ca <;> cases b <;> cases st <;> rfl

theorem pyGet_upd_status (u : SUpdate) (d : JVal) :
    u.toJVal.pyGet "status" d = .ok ((u.status.map JVal.str).getD d) := by
  rcases u with ⟨i, ca, b, st⟩
  cases i <;> cases ca <;> cases b <;> cases st <;> rfl

theorem pyGet_inc_id (inc : SIncident) (d : JVal) :
    inc.toJVal.pyGet "id" d = .ok ((inc.id.map JVal.str).getD d) := by
  rcases inc with ⟨i, n, im, cs, us⟩
  cases i <;> cases n <;> cases im <;> cases cs <;> cases us <;> rfl

theorem pyGet_inc_name (inc : SIncident) (d : JVal) :
    inc.toJVal.pyGet "name" d = .ok ((inc.name.map JVal.str).getD d) := by
  rcases inc with ⟨i, n, im, cs, us⟩
  cases i <;> cases n <;> cases im <;> cases cs <;> cases us <;> rfl

theorem pyGet_inc_impact (inc : SIncident) (d : JVal) :
    inc.toJVal.pyGet "impact" d = .ok ((inc.impact.map JVal.str).getD d) := by
  rcases inc with ⟨i, n, im, cs, us⟩
  cases i <;> cases n <;> cases im <;> cases cs <;> cases us <;> rfl

theorem pyGet_inc_components (inc : SIncident) (d : JVal) :
    inc.toJVal.pyGet "components" d =
      .ok ((inc.components.map fun cs => JVal.arr (cs.map SComponent.toJVal)).getD d) := by
  rcases inc with ⟨i, n, im, cs, us⟩
  cases i <;> cases n <;> cases im <;> cases cs <;> cases us <;> rfl

theorem pyGet_inc_updates (inc : SIncident) (d : JVal) :
    inc.toJVal.pyGet "incident_updates" d =
      .ok ((inc.incident_updates.map fun us => JVal.arr (us.map SUpdate.toJVal)).getD d) := by
  rcases inc with ⟨i, n, im, cs, us⟩
  cases i <;> cases n <;> cases im <;> cases cs <;> cases us <;> rfl

theorem pyGet_doc_incidents (d : SDoc) (dflt : JVal) :
    d.toJVal.pyGet "incidents" dflt =
      .ok ((d.incidents.map fun is => JVal.arr (is.map SIncident.toJVal)).getD dflt) := by
  rcases d with ⟨is⟩
  cases is <;> rfl

/-! ## Refinement: the detector on encoded documents computes the
specification-level recursion -/

theorem processUpdate_toJVal (a : String) (nm im : JVal) (aff : List JVal)
    (u : SUpdate) (seen : Seen) :
    processUpdate (.str a) nm im aff u.toJVal seen =
      if (HVal.str a, HVal.str (u.id.getD "")) ∈ seen then
        (.ok none, seen)
      else
        (.ok (some { incident_id := .str a, incident_name := nm,
                     update_id := .str (u.id.getD ""),
                     created_at := .str (u.created_at.getD ""),
                     body := pyTrim (u.body.getD ""),
                     update_status := .str (u.status.getD "unknown"),
                     impact := im, affected_components := aff }),
         (HVal.str a, HVal.str (u.id.getD "")) :: seen) := by
  simp only [processUpdate, pyGet_upd_id, pyGet_upd_created_at, pyGet_upd_body,
    pyGet_upd_status, optStr_getD, JVal.toHash, pyStrip]

theorem computeAffected_toJVal (cs : List SComponent) :
    computeAffected (cs.map SComponent.toJVal) = .ok (specAffectedList cs) := by
  induction cs with
  | nil => rfl
  | cons c rest ih =>
    rcases c with ⟨n⟩
    cases n with
    | none =>
      simp [computeAffected, pyGet_comp_name, JVal.truthy, specAffectedList, ih,
        List.filterMap_cons]
    | some s =>
      by_cases hs : s = "" <;>
        simp [computeAffected, pyGet_comp_name, JVal.truthy, specAffectedList, ih,
          List.filterMap_cons, hs]

theorem processUpdates_toJVal (a b c : String) (aff : List JVal)
    (us : List SUpdate) (seen : Seen) :
    processUpdates (.str a) (.str b) (.str c) aff (us.map SUpdate.toJVal) seen =
      (.ok (genIncRecords a b c aff us seen).1, (genIncRecords a b c aff us seen).2) := by
  induction us generalizing seen with
  | nil => rfl
  | cons u rest ih =>
    simp only [List.map_cons, processUpdates, processUpdate_toJVal, genIncRecords]
    by_cases h : (HVal.str a, HVal.str (u.id.getD "")) ∈ seen
    · simp only [if_pos h, ih]
    · simp only [if_neg h, ih, genRecord]

theorem processIncident_toJVal (inc : SIncident) (seen : Seen) :
    processIncident inc.toJVal seen =
      (.ok (specIncRecords inc inc.upds seen).1,
       (specIncRecords inc inc.upds seen).2) := by
  simp only [processIncident, pyGet_inc_id, pyGet_inc_name, pyGet_inc_impact,
    pyGet_inc_components, pyGet_inc_updates, optStr_getD]
  cases hcs : inc.components with
  | none =>
    cases hus : inc.incident_updates <;>
      simp [JVal.pyIter, computeAffected, computeAffected_toJVal,
        processUpdates_toJVal, specIncRecords, specAffected, specAffectedList,
        hcs, SIncident.upds, hus, processUpdates, genIncRecords]
  | some cs =>
    cases hus : inc.incident_updates <;>
      simp [JVal.pyIter, computeAffected_toJVal, processUpdates_toJVal,
        specIncRecords, specAffected, hcs, SIncident.upds, hus,
        processUpdates, genIncRecords]

theorem processIncidents_toJVal (incs : List SIncident) (seen : Seen) :
    processIncidents (incs.map SIncident.toJVal) seen =
      (.ok (specNewRecords incs seen).1, (specNewRecords incs seen).2) := by
  induction incs generalizing seen with
  | nil => rfl
  | cons inc rest ih =>
    simp only [List.map_cons, processIncidents, processIncident_toJVal,
      specNewRecords, ih]

theorem find_new_updates_toJVal (d : SDoc) (seen : Seen) :
    find_new_updates d.toJVal seen =
      (.ok (specNewRecords d.incs seen).1, (specNewRecords d.incs seen).2) := by
  simp only [find_new_updates, pyGet_doc_incidents]
  cases his : d.incidents <;>
    simp [JVal.pyIter, processIncidents_toJVal, SDoc.incs, his, specNewRecords,
      processIncidents]

theorem StepInv.refl (s : Seen) : StepInv s [] s :=
  ⟨fun _ h => h, fun r hr => absurd hr (List.not_mem_nil r), List.nodup_nil⟩

theorem StepInv.drop {s s' : Seen} {out : List IncidentUpdate}
    (h : StepInv s out s') : StepInv s [] s' :=
  ⟨h.mono, fun r hr => absurd hr (List.not_mem_nil r), List.nodup_nil⟩

theorem StepInv.comp {s s' s'' : Seen} {l1 l2 : List IncidentUpdate}
    (h1 : StepInv s l1 s') (h2 : StepInv s' l2 s'') :
    StepInv s (l1 ++ l2) s'' := by
  refine ⟨fun k hk => h2.mono k (h1.mono k hk), ?_, ?_⟩
  · intro r hr
    rcases List.mem_append.mp hr with h | h
    · exact ⟨h2.mono _ (h1.fresh r h).1, (h1.fresh r h).2⟩
    · exact ⟨(h2.fresh r h).1, fun hk => (h2.fresh r h).2 (h1.mono _ hk)⟩
  · rw [List.map_append]
    refine List.Nodup.append h1.nodup h2.nodup ?_
    intro k hk1 hk2
    rcases List.mem_map.mp hk1 with ⟨r, hr, hkr⟩
    rcases List.mem_map.mp hk2 with ⟨r', hr', hkr'⟩
    exact (h2.fresh r' hr').2 (hkr' ▸ hkr ▸ (h1.fresh r hr).1)

theorem processUpdate_inv (incId incName incImpact : JVal) (aff : List JVal)
    (u : JVal) (seen : Seen) :
    StepInv seen (okOpt (processUpdate incId incName incImpact aff u seen).1)
      (processUpdate incId incName incImpact aff u seen).2 := by
  have triv : ∀ s' : Seen, StepInv seen [] (s' ++ seen) := by
    intro s'
    exact ⟨fun k hk => List.mem_append_right s' hk,
      fun r hr => absurd hr (List.not_mem_nil r), List.nodup_nil⟩
  cases hget : u.pyGet "id" (.str "") with
  | error e =>
    simp only [processUpdate, hget]
    exact StepInv.refl seen
  | ok updId =>
    cases hhi : incId.toHash with
    | none =>
      simp only [processUpdate, hget, hhi]
      exact StepInv.refl seen
    | some hi =>
      cases hhu : updId.toHash with
      | none =>
        simp only [processUpdate, hget, hhi, hhu]
        exact StepInv.refl seen
      | some hu =>
        by_cases hmem : (hi, hu) ∈ seen
        · simp only [processUpdate, hget, hhi, hhu, if_pos hmem]
          exact StepInv.refl seen
        · cases hca : u.pyGet "created_at" (.str "") with
          | error e =>
            simp only [processUpdate, hget, hhi, hhu, if_neg hmem, hca]
            exact triv [(hi, hu)]
          | ok created =>
            cases hb : u.pyGet "body" (.str "") with
            | error e =>
              simp only [processUpdate, hget, hhi, hhu, if_neg hmem, hca, hb]
              exact triv [(hi, hu)]
            | ok bodyVal =>
              cases hstrip : pyStrip bodyVal with
              | error e =>
                simp only [processUpdate, hget, hhi, hhu, if_neg hmem, hca, hb, hstrip]
                exact triv [(hi, hu)]
              | ok body =>
                cases hst : u.pyGet "status" (.str "unknown") with
                | error e =>
                  simp only [processUpdate, hget, hhi, hhu, if_neg hmem, hca, hb,
                    hstrip, hst]
                  exact triv [(hi, hu)]
                | ok status =>
                  simp only [processUpdate, hget, hhi, hhu, if_neg hmem, hca, hb,
                    hstrip, hst]
                  refine ⟨fun k hk => List.mem_cons_of_mem _ hk, ?_, ?_⟩
                  · intro r hr
                    rcases List.mem_singleton.mp hr with rfl
                    refine ⟨?_, ?_⟩
                    · simp [okOpt, updateKey, hhi, hhu]
                    · simpa [okOpt, updateKey, hhi, hhu] using hmem
                  · simp [okOpt]

theorem processUpdates_inv (incId incName incImpact : JVal) (aff : List JVal)
    (us : List JVal) (seen : Seen) :
    StepInv seen (okList (processUpdates incId incName incImpact aff us seen).1)
      (processUpdates incId incName incImpact aff us seen).2 := by
  induction us generalizing seen with
  | nil => exact StepInv.refl seen
  | cons u rest ih =>
    have h1 := processUpdate_inv incId incName incImpact aff u seen
    rcases hpu : processUpdate incId incName incImpact aff u seen with ⟨res, seen1⟩
    rw [hpu] at h1
    simp only [processUpdates, hpu]
    cases res with
    | error e =>
      simp only [okOpt] at h1
      exact h1.drop
    | ok opt =>
      cases opt with
      | none =>
        simp only [okOpt] at h1
        simpa using h1.comp (ih seen1)
      | some r =>
        simp only [okOpt] at h1
        have h2 := ih seen1
        rcases hrest : processUpdates incId incName incImpact aff rest seen1 with ⟨res2, seen2⟩
        rw [hrest] at h2
        cases res2 with
        | error e =>
          simp only [okList] at h2
          simp only [hrest, okList]
          exact (h1.comp h2).drop
        | ok rs =>
          simp only [okList] at h2
          simp only [hrest, okList]
          simpa using h1.comp h2

theorem processIncident_inv (incident : JVal) (seen : Seen) :
    StepInv seen (okList (processIncident incident seen).1)
      (processIncident incident seen).2 := by
  cases h1 : incident.pyGet "id" (.str "") with
  | error e => simp only [processIncident, h1]; exact StepInv.refl seen
  | ok incId =>
    cases h2 : incident.pyGet "name" (.str "Unknown incident") with
    | error e => simp only [processIncident, h1, h2]; exact StepInv.refl seen
    | ok incName =>
      cases h3 : incident.pyGet "impact" (.str "unknown") with
      | error e => simp only [processIncident, h1, h2, h3]; exact StepInv.refl seen
      | ok incImpact =>
        cases h4 : incident.pyGet "components" (.arr []) with
        | error e => simp only [processIncident, h1, h2, h3, h4]; exact StepInv.refl seen
        | ok compsVal =>
          cases h5 : compsVal.pyIter with
          | error e =>
            simp only [processIncident, h1, h2, h3, h4, h5]
            exact StepInv.refl seen
          | ok comps =>
            cases h6 : computeAffected comps with
            | error e =>
              simp only [processIncident, h1, h2, h3, h4, h5, h6]
              exact StepInv.refl seen
            | ok affected =>
              cases h7 : incident.pyGet "incident_updates" (.arr []) with
              | error e =>
                simp only [processIncident, h1, h2, h3, h4, h5, h6, h7]
                exact StepInv.refl seen
              | ok updsVal =>
                cases h8 : updsVal.pyIter with
                | error e =>
                  simp only [processIncident, h1, h2, h3, h4, h5, h6, h7, h8]
                  exact StepInv.refl seen
                | ok upds =>
                  simp only [processIncident, h1, h2, h3, h4, h5, h6, h7, h8]
                  exact processUpdates_inv incId incName incImpact affected upds seen

theorem processIncidents_inv (incs : List JVal) (seen : Seen) :
    StepInv seen (okList (processIncidents incs seen).1)
      (processIncidents incs seen).2 := by
  induction incs generalizing seen with
  | nil => exact StepInv.refl seen
  | cons inc rest ih =>
    have h1 := processIncident_inv inc seen
    rcases hpi : processIncident inc seen with ⟨res, seen1⟩
    rw [hpi] at h1
    simp only [processIncidents, hpi]
    cases res with
    | error e =>
      simp only [okList] at h1
      exact h1.drop
    | ok l1 =>
      simp only [okList] at h1
      have h2 := ih seen1
      rcases hrest : processIncidents rest seen1 with ⟨res2, seen2⟩
      rw [hrest] at h2
      cases res2 with
      | error e =>
        simp only [okList] at h2
        simp only [hrest, okList]
        exact (h1.comp h2).drop
      | ok l2 =>
        simp only [okList] at h2
        simp only [hrest, okList]
        exact h1.comp h2

theorem find_new_updates_inv (d : JVal) (seen : Seen) :
    StepInv seen (okList (find_new_updates d seen).1) (find_new_updates d seen).2 := by
  cases h1 : d.pyGet "incidents" (.arr []) with
  | error e => simp only [find_new_updates, h1]; exact StepInv.refl seen
  | ok incsVal =>
    cases h2 : incsVal.pyIter with
    | error e => simp only [find_new_updates, h1, h2]; exact StepInv.refl seen
    | ok incs =>
      simp only [find_new_updates, h1, h2]
      exact processIncidents_inv incs seen

theorem callOutput_nil (s : Seen) (i : Nat) : callOutput [] s i = [] := rfl

theorem callOutput_zero (d : JVal) (ds : List JVal) (s : Seen) :
    callOutput (d :: ds) s 0 = okList (find_new_updates d s).1 := by
  rcases h : find_new_updates d s with ⟨r, s'⟩
  simp [callOutput, runDetector, h]

theorem callOutput_succ (d : JVal) (ds : List JVal) (s : Seen) (i : Nat) :
    callOutput (d :: ds) s (i + 1) = callOutput ds (find_new_updates d s).2 i := by
  rcases h : find_new_updates d s with ⟨r, s'⟩
  simp [callOutput, runDetector, h]

theorem runDetector_mono (ds : List JVal) (s : Seen) :
    ∀ k ∈ s, k ∈ (runDetector ds s).2 := by
  induction ds generalizing s with
  | nil => exact fun k hk => hk
  | cons d rest ih =>
    intro k hk
    rcases h : find_new_updates d s with ⟨r, s'⟩
    have hmono := (find_new_updates_inv d s).mono k hk
    rw [h] at hmono
    simpa [runDetector, h] using ih s' k hmono

theorem callOutput_not_in_pre (ds : List JVal) (s : Seen) (i : Nat)
    (r : IncidentUpdate) (hr : r ∈ callOutput ds s i) : updateKey r ∉ s := by
  induction ds generalizing s i with
  | nil => rw [callOutput_nil] at hr; exact absurd hr (List.not_mem_nil r)
  | cons d rest ih =>
    cases i with
    | zero =>
      rw [callOutput_zero] at hr
      exact ((find_new_updates_inv d s).fresh r hr).2
    | succ i =>
      rw [callOutput_succ] at hr
      intro hk
      exact ih _ _ hr ((find_new_updates_inv d s).mono _ hk)

theorem callOutput_disjoint (ds : List JVal) (s : Seen) (i j : Nat) (hij : i < j)
    (r r' : IncidentUpdate) (hr : r ∈ callOutput ds s i)
    (hr' : r' ∈ callOutput ds s j) : updateKey r ≠ updateKey r' := by
  induction ds generalizing s i j with
  | nil => rw [callOutput_nil] at hr; exact absurd hr (List.not_mem_nil r)
  | cons d rest ih =>
    obtain ⟨j', rfl⟩ : ∃ j', j = j' + 1 := ⟨j - 1, by omega⟩
    rw [callOutput_succ] at hr'
    cases i with
    | zero =>
      rw [callOutput_zero] at hr
      have h1 : updateKey r ∈ (find_new_updates d s).2 :=
        ((find_new_updates_inv d s).fresh r hr).1
      have h2 : updateKey r' ∉ (find_new_updates d s).2 :=
        callOutput_not_in_pre rest _ j' r' hr'
      intro he
      exact h2 (he ▸ h1)
    | succ i =>
      rw [callOutput_succ] at hr
      exact ih _ i j' (by omega) hr hr'

theorem callOutput_nodup (ds : List JVal) (s : Seen) (i : Nat) :
    ((callOutput ds s i).map updateKey).Nodup := by
  induction ds generalizing s i with
  | nil => rw [callOutput_nil]; exact List.nodup_nil
  | cons d rest ih =>
    cases i with
    | zero => rw [callOutput_zero]; exact (find_new_updates_inv d s).nodup
    | succ i => rw [callOutput_succ]; exact ih _ i

/-! ## Specification-level lemmas: fresh runs, repeat runs, ordering -/

theorem genIncRecords_fresh (a b c : String) (aff : List JVal)
    (us : List SUpdate) (s : Seen)
    (hn : (us.map fun u => ((HVal.str a, HVal.str (u.id.getD "")) : HVal × HVal)).Nodup)
    (hd : ∀ u ∈ us, ((HVal.str a, HVal.str (u.id.getD "")) : HVal × HVal) ∉ s) :
    genIncRecords a b c aff us s =
      (us.map (genRecord a b c aff),
       (us.map fun u => ((HVal.str a, HVal.str (u.id.getD "")) : HVal × HVal)).reverse ++ s) := by
  induction us generalizing s with
  | nil => rfl
  | cons u rest ih =>
    simp only [List.map_cons, List.nodup_cons] at hn
    have hu : ((HVal.str a, HVal.str (u.id.getD "")) : HVal × HVal) ∉ s :=
      hd u (List.mem_cons_self u rest)
    have hd' : ∀ v ∈ rest,
        ((HVal.str a, HVal.str (v.id.getD "")) : HVal × HVal) ∉
          ((HVal.str a, HVal.str (u.id.getD "")) : HVal × HVal) :: s := by
      intro v hv hmem
      rcases List.mem_cons.mp hmem with he | hs
      · exact hn.1 (he ▸ List.mem_map_of_mem _ hv)
      · exact hd v (List.mem_cons_of_mem u hv) hs
    simp only [genIncRecords, if_neg hu, ih _ hn.2 hd', List.map_cons,
      List.reverse_cons, List.append_assoc, List.singleton_append]

theorem genIncRecords_allSeen (a b c : String) (aff : List JVal)
    (us : List SUpdate) (s : Seen)
    (h : ∀ u ∈ us, ((HVal.str a, HVal.str (u.id.getD "")) : HVal × HVal) ∈ s) :
    genIncRecords a b c aff us s = ([], s) := by
  induction us with
  | nil => rfl
  | cons u rest ih =>
    rw [genIncRecords, if_pos (h u (List.mem_cons_self u rest))]
    exact ih fun v hv => h v (List.mem_cons_of_mem u hv)

theorem specIncRecords_keys_eq (inc : SIncident) :
    SIncident.keys inc =
      inc.upds.map fun u => ((HVal.str (inc.id.getD ""), HVal.str (u.id.getD "")) : HVal × HVal) := rfl

theorem specNewRecords_fresh (incs : List SIncident) (s : Seen)
    (hn : ((incs.map SIncident.keys).flatten).Nodup)
    (hd : ∀ k ∈ (incs.map SIncident.keys).flatten, k ∉ s) :
    specNewRecords incs s =
      ((incs.map fun inc => inc.upds.map (specRecord inc)).flatten,
       ((incs.map SIncident.keys).flatten).reverse ++ s) := by
  induction incs generalizing s with
  | nil => rfl
  | cons inc rest ih =>
    simp only [List.map_cons, List.flatten_cons] at hn hd ⊢
    rw [List.nodup_append] at hn
    have hd1 : ∀ u ∈ inc.upds,
        ((HVal.str (inc.id.getD ""), HVal.str (u.id.getD "")) : HVal × HVal) ∉ s := by
      intro u hu
      exact hd _ (List.mem_append_left _ (specIncRecords_keys_eq inc ▸ List.mem_map_of_mem _ hu))
    have h1 : specIncRecords inc inc.upds s =
        (inc.upds.map (specRecord inc), (SIncident.keys inc).reverse ++ s) := by
      rw [specIncRecords_keys_eq]
      exact genIncRecords_fresh _ _ _ _ _ _ (specIncRecords_keys_eq inc ▸ hn.1) hd1
    have hd2 : ∀ k ∈ (rest.map SIncident.keys).flatten,
        k ∉ (SIncident.keys inc).reverse ++ s := by
      intro k hk hmem
      rcases List.mem_append.mp hmem with hrev | hs
      · exact hn.2.2 (List.mem_reverse.mp hrev) hk
      · exact hd k (List.mem_append_right _ hk) hs
    simp only [specNewRecords, h1, ih _ hn.2.1 hd2, List.reverse_append,
      List.append_assoc]

theorem specNewRecords_allSeen (incs : List SIncident) (s : Seen)
    (h : ∀ k ∈ (incs.map SIncident.keys).flatten, k ∈ s) :
    specNewRecords incs s = ([], s) := by
  induction incs with
  | nil => rfl
  | cons inc rest ih =>
    have h1 : specIncRecords inc inc.upds s = ([], s) := by
      refine genIncRecords_allSeen _ _ _ _ _ _ ?_
      intro u hu
      refine h _ ?_
      simp only [List.map_cons, List.flatten_cons]
      exact List.mem_append_left _ (specIncRecords_keys_eq inc ▸ List.mem_map_of_mem _ hu)
    have h2 : specNewRecords rest s = ([], s) := by
      refine ih ?_
      intro k hk
      refine h _ ?_
      simp only [List.map_cons, List.flatten_cons]
      exact List.mem_append_right _ hk
    simp [specNewRecords, h1, h2]

theorem genIncRecords_sublist (a b c : String) (aff : List JVal)
    (us : List SUpdate) (s : Seen) :
    (genIncRecords a b c aff us s).1.Sublist (us.map (genRecord a b c aff)) := by
  induction us generalizing s with
  | nil => simp [genIncRecords]
  | cons u rest ih =>
    simp only [List.map_cons]
    by_cases h : ((HVal.str a, HVal.str (u.id.getD "")) : HVal × HVal) ∈ s
    · rw [genIncRecords, if_pos h]
      exact (ih s).cons _
    · rcases hres : genIncRecords a b c aff rest
        (((HVal.str a, HVal.str (u.id.getD "")) : HVal × HVal) :: s) with ⟨l, s'⟩
      have ih' := ih (((HVal.str a, HVal.str (u.id.getD "")) : HVal × HVal) :: s)
      rw [hres] at ih'
      rw [genIncRecords, if_neg h, hres]
      exact ih'.cons₂ _

theorem specNewRecords_sublist (incs : List SIncident) (s : Seen) :
    (specNewRecords incs s).1.Sublist
      ((incs.map fun inc => inc.upds.map (specRecord inc)).flatten) := by
  induction incs generalizing s with
  | nil => simp [specNewRecords]
  | cons inc rest ih =>
    rcases h1 : specIncRecords inc inc.upds s with ⟨l1, s1⟩
    rcases h2 : specNewRecords rest s1 with ⟨l2, s2⟩
    have hs1 : l1.Sublist (inc.upds.map (specRecord inc)) := by
      have := genIncRecords_sublist (inc.id.getD "") (inc.name.getD "Unknown incident")
        (inc.impact.getD "unknown") (specAffected inc) inc.upds s
      rw [show genIncRecords (inc.id.getD "") (inc.name.getD "Unknown incident")
        (inc.impact.getD "unknown") (specAffected inc) inc.upds s =
          specIncRecords inc inc.upds s from rfl, h1] at this
      exact this
    have hs2 := ih s1
    rw [h2] at hs2
    simp only [specNewRecords, h1, h2, List.map_cons, List.flatten_cons]
    exact hs1.append hs2

theorem specNewRecords_mem (incs : List SIncident) (s : Seen)
    (r : IncidentUpdate) (hr : r ∈ (specNewRecords incs s).1) :
    ∃ inc ∈ incs, ∃ u ∈ inc.upds, r = specRecord inc u := by
  have hmem := (specNewRecords_sublist incs s).subset hr
  rcases List.mem_flatten.mp hmem with ⟨l, hl, hrl⟩
  rcases List.mem_map.mp hl with ⟨inc, hinc, rfl⟩
  rcases List.mem_map.mp hrl with ⟨u, hu, rfl⟩
  exact ⟨inc, hinc, u, hu, rfl⟩

theorem updateKey_specRecord (inc : SIncident) (u : SUpdate) :
    updateKey (specRecord inc u) = entryKey inc u := rfl

theorem allRecords_map_key (d : SDoc) :
    d.allRecords.map updateKey = d.docKeys := by
  simp only [SDoc.allRecords, SDoc.docKeys, List.map_flatten, List.map_map]
  congr 1
  refine List.map_congr_left ?_
  intro inc _
  show List.map updateKey (List.map (specRecord inc) inc.upds) = inc.keys
  rw [List.map_map]
  rfl

/-- **C4** (the claim fails on the code): on a 2xx response whose body
is unparseable, `fetch` first overwrites the URL's validator-cache
entry and then raises `json.JSONDecodeError`, which no handler in
`fetch` or in `monitor_provider`'s loop catches — the exception
escapes the loop boundary with the fetcher state already mutated,
instead of the cycle being skipped with no state change. -/
theorem unparseable_body_escapes_and_mutates :
    fetch unparseableTransport [] "https://status.example/api" =
      (.raised .jsonDecodeError,
       [("https://status.example/api", ⟨some "tag-1", none⟩)]) ∧
    monitorCycle unparseableTransport "https://status.example/api" ⟨[], []⟩ =
      (.error .jsonDecodeError,
       ⟨[("https://status.example/api", ⟨some "tag-1", none⟩)], []⟩) :=
  ⟨rfl, rfl⟩

/-- **C5 counterexample**: a non-2xx/non-304 status (302) is *not*
treated as a failure — `raise_for_status` only raises for statuses
≥ 400, so the body is returned as a document and the validator cache
is overwritten, contradicting "returns the Failed outcome ... cache is
left untouched". -/
theorem non2xx_status_counterexample :
    fetch redirectTransport [] "https://status.example/v2" =
      (.doc (.obj []), [("https://status.example/v2", ⟨some "redirect-tag", none⟩)]) ∧
    (FetchResult.doc (.obj []) ≠ FetchResult.noData) ∧
    ([("https://status.example/v2", (⟨some "redirect-tag", none⟩ : CacheEntry))] ≠
      ([] : Cache)) :=
  ⟨rfl, fun h => FetchResult.noConfusion h, fun h => List.noConfusion h⟩

/-- **C5 (amended)**: a network error or timeout raised before a
response is delivered, and a delivered status ≥ 400 (what
`raise_for_status` rejects), make `fetch` return `None` without
raising, with the validator cache untouched and the orchestrator cycle
performing zero sink invocations and no state mutation.  A network
error or timeout raised while reading the body of an accepted
(sub-400, non-304) response is likewise caught and returns `None` —
zero sink invocations, seen-set unchanged — but only after the URL's
validator-cache entry was already overwritten with that response's
validators, so "no state mutation" fails for exactly this class of
transport failure. -/
theorem transport_failure_skips_cycle (t : Transport) (url : String) (st : CycleState) :
    ((match t url (requestHeadersFor st.cache url) with
      | .clientError => True
      | .timeoutError => True
      | .resp r => 400 ≤ r.status) →
      fetch t st.cache url = (.noData, st.cache) ∧
        monitorCycle t url st = (.ok [], st)) ∧
    (∀ r : HttpResponse, t url (requestHeadersFor st.cache url) = .resp r →
      r.status ≠ 304 → r.status < 400 →
      (r.body = .readClientError ∨ r.body = .readTimeoutError) →
      fetch t st.cache url = (.noData, cacheSet st.cache url (entryOfResponse r)) ∧
        monitorCycle t url st =
          (.ok [], ⟨cacheSet st.cache url (entryOfResponse r), st.seen⟩)) := by
  rcases st with ⟨c, sn⟩
  constructor
  · intro h
    simp only at h
    have hfetch : fetch t c url = (.noData, c) := by
      cases hres : t url (requestHeadersFor c url) with
      | clientError => simp [fetch, hres]
      | timeoutError => simp [fetch, hres]
      | resp r =>
        rw [hres] at h
        have h400 : 400 ≤ r.status := h
        have h304 : ¬ r.status = 304 := by omega
        simp [fetch, hres, h304, h400]
    exact ⟨hfetch, by simp [monitorCycle, hfetch]⟩
  · intro r hres h304 h400 hbody
    simp only at hres
    have hfetch : fetch t c url = (.noData, cacheSet c url (entryOfResponse r)) := by
      rcases hbody with hb | hb <;>
        simp [fetch, hres, h304, hb, Nat.not_le.mpr h400]
    exact ⟨hfetch, by simp [monitorCycle, hfetch]⟩

theorem transport_failure_skips_cycle_witness :
    (fetch timeoutTransport [] "https://status.example/w5" = (.noData, []) ∧
      monitorCycle timeoutTransport "https://status.example/w5" ⟨[], []⟩ =
        (.ok [], ⟨[], []⟩)) ∧
    (fetch bodyReadTimeoutTransport [] "https://status.example/w5b" =
        (.noData, [("https://status.example/w5b", ⟨some "tag-2", none⟩)]) ∧
      monitorCycle bodyReadTimeoutTransport "https://status.example/w5b" ⟨[], []⟩ =
        (.ok [], ⟨[("https://status.example/w5b", ⟨some "tag-2", none⟩)], []⟩)) :=
  ⟨(transport_failure_skips_cycle timeoutTransport "https://status.example/w5"
      ⟨[], []⟩).1 trivial,
   (transport_failure_skips_cycle bodyReadTimeoutTransport
      "https://status.example/w5b" ⟨[], []⟩).2
     { status := 200, etagHeader := some "tag-2", lastModifiedHeader := none,
       body := .readTimeoutError }
     rfl (by decide) (by decide) (Or.inr rfl)⟩

/-- **C6**: on a 304 response `fetch` returns `None` before touching
the cache, and the orchestrator cycle runs no detection and performs
zero sink invocations. -/
theorem not_modified_leaves_cache (t : Transport) (url : String) (st : CycleState)
    (r : HttpResponse) (hr : t url (requestHeadersFor st.cache url) = .resp r)
    (h304 : r.status = 304) :
    fetch t st.cache url = (.noData, st.cache) ∧
      monitorCycle t url st = (.ok [], st) := by
  rcases st with ⟨c, sn⟩
  simp only at hr
  have hfetch : fetch t c url = (.noData, c) := by
    simp [fetch, hr, h304]
  exact ⟨hfetch, by simp [monitorCycle, hfetch]⟩

theorem not_modified_leaves_cache_witness :
    fetch notModifiedTransport [("u", ⟨some "E", none⟩)] "u" =
      (.noData, [("u", ⟨some "E", none⟩)]) ∧
    monitorCycle notModifiedTransport "u" ⟨[("u", ⟨some "E", none⟩)], []⟩ =
      (.ok [], ⟨[("u", ⟨some "E", none⟩)], []⟩) :=
  not_modified_leaves_cache notModifiedTransport "u" ⟨[("u", ⟨some "E", none⟩)], []⟩
    { status := 304, etagHeader := none, lastModifiedHeader := none,
      body := .unparseable } rfl rfl

/-- **C8**: the validator cache after a fetch is exactly: unchanged on
a transport error, a timeout, a 304 or a status ≥ 400; and on an
accepted (status < 400, non-304) response, the URL's entry is
overwritten with the entry built from that response's validator
headers alone — wholesale, independent of the previous entry and of
whether the body parses, so validators the response does not carry are
dropped. -/
theorem cache_overwritten_wholesale (t : Transport) (url : String) (c : Cache) :
    (fetch t c url).2 =
      match t url (requestHeadersFor c url) with
      | .resp r =>
          if r.status = 304 then c
          else if 400 ≤ r.status then c
          else cacheSet c url (entryOfResponse r)
      | .clientError => c
      | .timeoutError => c := by
  cases hres : t url (requestHeadersFor c url) with
  | clientError => simp [fetch, hres]
  | timeoutError => simp [fetch, hres]
  | resp r =>
    by_cases h304 : r.status = 304
    · simp [fetch, hres, h304]
    · by_cases herr : 400 ≤ r.status
      · simp [fetch, hres, h304, herr]
      · cases hb : r.body <;> simp [fetch, hres, h304, herr, hb]

/-! ## Claim theorems: detector -/

/-- **C1**: exactly-once reporting.  For any sequence of documents fed
to one detector instance: the seen-set only grows across the whole
sequence, no call's output repeats a key (even when a document repeats
a key internally), and a key appearing in the output of call `i` never
appears in the output of any later call `j`. -/
theorem detector_exactly_once (ds : List JVal) (s0 : Seen) :
    (∀ k ∈ s0, k ∈ (runDetector ds s0).2) ∧
    (∀ i, ((callOutput ds s0 i).map updateKey).Nodup) ∧
    (∀ i j, i < j → ∀ r ∈ callOutput ds s0 i, ∀ r' ∈ callOutput ds s0 j,
      updateKey r ≠ updateKey r') :=
  ⟨runDetector_mono ds s0, fun i => callOutput_nodup ds s0 i,
   fun i j hij r hr r' hr' => callOutput_disjoint ds s0 i j hij r r' hr hr'⟩

theorem detector_exactly_once_witness :
    (0 : Nat) < 1 ∧ updateKey wRecA ≠ updateKey wRecB :=
  ⟨Nat.zero_lt_one,
   (detector_exactly_once [wDocA, wDocB] []).2.2 0 1 Nat.zero_lt_one
     wRecA (show wRecA ∈ callOutput [wDocA, wDocB] [] 0 from
       (show callOutput [wDocA, wDocB] [] 0 = [wRecA] from rfl) ▸
         List.mem_singleton.mpr rfl)
     wRecB (show wRecB ∈ callOutput [wDocA, wDocB] [] 1 from
       (show callOutput [wDocA, wDocB] [] 1 = [wRecB] from rfl) ▸
         List.mem_singleton.mpr rfl)⟩

/-- **C2**: detector idempotence.  For any schema-conforming document
whose `(incident_id, update_id)` keys are pairwise distinct (the
spec's own uniqueness invariant for update keys), a fresh detector
returns every update entry of the document, in document order, on the
first call, and an empty list — with the seen-set unchanged — on the
second call with the same document. -/
theorem detector_idempotent (d : SDoc) (hkeys : d.docKeys.Nodup) :
    ∃ s1, find_new_updates d.toJVal [] = (Except.ok d.allRecords, s1) ∧
      find_new_updates d.toJVal s1 = (Except.ok [], s1) := by
  refine ⟨d.docKeys.reverse ++ [], ?_, ?_⟩
  · rw [find_new_updates_toJVal,
      specNewRecords_fresh d.incs [] hkeys (fun k _ hk => List.not_mem_nil k hk)]
    rfl
  · have hall : ∀ k ∈ (d.incs.map SIncident.keys).flatten,
        k ∈ d.docKeys.reverse ++ [] := fun k hk =>
      List.mem_append_left [] (List.mem_reverse.mpr hk)
    rw [find_new_updates_toJVal,
      specNewRecords_allSeen d.incs (d.docKeys.reverse ++ []) hall]

theorem detector_idempotent_witness :
    wSDoc.docKeys.Nodup ∧
    ∃ s1, find_new_updates wSDoc.toJVal [] = (Except.ok wSDoc.allRecords, s1) ∧
      find_new_updates wSDoc.toJVal s1 = (Except.ok [], s1) :=
  ⟨by decide, detector_idempotent wSDoc (by decide)⟩

/-- **C3**: order preservation.  For any schema-conforming document
and any detector state, the call returns without raising, and both the
returned records and their keys form a subsequence of the document's
records/keys in document order (incidents outer, update entries
inner) — entries are only ever skipped, never reordered or sorted. -/
theorem detector_order_preserving (d : SDoc) (s : Seen) :
    ∃ l s', find_new_updates d.toJVal s = (Except.ok l, s') ∧
      l.Sublist d.allRecords ∧ (l.map updateKey).Sublist d.docKeys := by
  refine ⟨(specNewRecords d.incs s).1, (specNewRecords d.incs s).2,
    find_new_updates_toJVal d s, specNewRecords_sublist d.incs s, ?_⟩
  rw [← allRecords_map_key d]
  exact (specNewRecords_sublist d.incs s).map updateKey

/-- **C7**: default-field permissiveness.  On any schema-conforming
document — any subset of fields absent — `find_new_updates` returns
without raising and processes every incident; every produced record
arises from an update entry of an incident of the document, and a
record built from an entry with an absent field carries the explicit
placeholder for that field: `""` for `incident_id`, `update_id`,
`created_at` and `body`, `"Unknown incident"` for the incident name,
`"unknown"` for the status and the impact. -/
theorem detector_missing_fields_permissive (d : SDoc) (s : Seen) :
    (∃ l s', find_new_updates d.toJVal s = (Except.ok l, s') ∧
      ∀ r ∈ l, ∃ inc ∈ d.incs, ∃ u ∈ inc.upds, r = specRecord inc u) ∧
    (∀ inc u, inc.id = none → (specRecord inc u).incident_id = .str "") ∧
    (∀ inc u, inc.name = none →
      (specRecord inc u).incident_name = .str "Unknown incident") ∧
    (∀ inc u, inc.impact = none → (specRecord inc u).impact = .str "unknown") ∧
    (∀ inc u, u.id = none → (specRecord inc u).update_id = .str "") ∧
    (∀ inc u, u.created_at = none → (specRecord inc u).created_at = .str "") ∧
    (∀ inc u, u.body = none → (specRecord inc u).body = "") ∧
    (∀ inc u, u.status = none →
      (specRecord inc u).update_status = .str "unknown") := by
  refine ⟨⟨(specNewRecords d.incs s).1, (specNewRecords d.incs s).2,
      find_new_updates_toJVal d s, fun r hr => specNewRecords_mem d.incs s r hr⟩,
    ?_, ?_, ?_, ?_, ?_, ?_, ?_⟩ <;>
    · intro inc u h
      simp [specRecord, genRecord, h]
      try rfl

theorem detector_missing_fields_permissive_witness :
    (specRecord wIncM wUpdM).incident_id = .str "" ∧
    (specRecord wIncM wUpdM).incident_name = .str "Unknown incident" ∧
    (specRecord wIncM wUpdM).impact = .str "unknown" ∧
    (specRecord wIncM wUpdM).update_id = .str "" ∧
    (specRecord wIncM wUpdM).created_at = .str "" ∧
    (specRecord wIncM wUpdM).body = "" ∧
    (specRecord wIncM wUpdM).update_status = .str "unknown" ∧
    (∃ l s', find_new_updates (SDoc.mk (some [wIncM])).toJVal [] =
        (Except.ok l, s') ∧
      ∀ r ∈ l, ∃ inc ∈ (SDoc.mk (some [wIncM])).incs, ∃ u ∈ inc.upds,
        r = specRecord inc u) :=
  ⟨(detector_missing_fields_permissive ⟨some [wIncM]⟩ []).2.1 wIncM wUpdM rfl,
   (detector_missing_fields_permissive ⟨some [wIncM]⟩ []).2.2.1 wIncM wUpdM rfl,
   (detector_missing_fields_permissive ⟨some [wIncM]⟩ []).2.2.2.1 wIncM wUpdM rfl,
   (detector_missing_fields_permissive ⟨some [wIncM]⟩ []).2.2.2.2.1 wIncM wUpdM rfl,
   (detector_missing_fields_permissive ⟨some [wIncM]⟩ []).2.2.2.2.2.1 wIncM wUpdM rfl,
   (detector_missing_fields_permissive ⟨some [wIncM]⟩ []).2.2.2.2.2.2.1 wIncM wUpdM rfl,
   (detector_missing_fields_permissive ⟨some [wIncM]⟩ []).2.2.2.2.2.2.2 wIncM wUpdM rfl,
   (detector_missing_fields_permissive ⟨some [wIncM]⟩ []).1⟩

/-- **C9**: a present-but-null `body` makes `find_new_updates` raise
(`None.strip()` is an `AttributeError`), yet the key `(inc1, u1)` was
added to the seen-set before the record was built, so the seen-set is
mutated by the failing call — and a later call with the same entry
corrected reports nothing: the update is permanently suppressed. -/
theorem null_body_raises_and_suppresses :
    find_new_updates nullBodyDoc [] =
      (.error .attributeError, [(HVal.str "inc1", HVal.str "u1")]) ∧
    find_new_updates fixedBodyDoc [(HVal.str "inc1", HVal.str "u1")] =
      (.ok [], [(HVal.str "inc1", HVal.str "u1")]) :=
  ⟨rfl, rfl⟩

/-- **C10**: every produced record's `affected_components` is exactly
the incident's component names that are present and non-empty, in
document order with duplicates preserved (components with a missing or
empty name are silently dropped, with no placeholder), and the list
depends only on the incident, so all records of one incident share
it. -/
theorem detector_affected_components (d : SDoc) (s : Seen) :
    (∃ l s', find_new_updates d.toJVal s = (Except.ok l, s') ∧
      ∀ r ∈ l, ∃ inc ∈ d.incs, (∃ u ∈ inc.upds, r = specRecord inc u) ∧
        r.affected_components = specAffected inc) ∧
    (∀ inc u u', (specRecord inc u).affected_components =
      (specRecord inc u').affected_components) ∧
    (∀ cs, specAffectedList cs = cs.filterMap fun c =>
      match c.name with
      | some n => if n = "" then none else some (JVal.str n)
      | none => none) := by
  refine ⟨⟨(specNewRecords d.incs s).1, (specNewRecords d.incs s).2,
      find_new_updates_toJVal d s, ?_⟩, fun inc u u' => rfl, fun cs => rfl⟩
  intro r hr
  rcases specNewRecords_mem d.incs s r hr with ⟨inc, hinc, u, hu, rfl⟩
  exact ⟨inc, hinc, ⟨u, hu, rfl⟩, rfl⟩

theorem detector_affected_components_witness :
    specAffected wCompInc = [JVal.str "API", JVal.str "API"] ∧
    (∃ l s', find_new_updates (SDoc.mk (some [wCompInc])).toJVal [] =
        (Except.ok l, s') ∧
      ∀ r ∈ l, ∃ inc ∈ (SDoc.mk (some [wCompInc])).incs,
        (∃ u ∈ inc.upds, r = specRecord inc u) ∧
        r.affected_components = specAffected inc) :=
  ⟨rfl, (detector_affected_components ⟨some [wCompInc]⟩ []).1⟩
